import Mathlib

/-!
Shallow embedding of the r-debugger sources, together with theorems that
settle the specification claims about the breakpoint table, the breakpoint
patching engine, the ULEB128 codec, the ELF64 section selection, the DWARF
DIE loop, the shell error handling, the syscall name table and the
null-terminated string extractor.

Each Lean definition mirrors one Rust item of the repository; fallible
paths (Rust panics and Err returns) become Option/Except values, machine
integers become Nat with explicit `% 2 ^ w` at the points where the Rust
code truncates, and byte streams become `List Nat` of byte values.
-/

/- ===================== src/address.rs ===================== -/

/-- Embeds the two implementors of `AddressTrait` (src/address.rs):
`AdrFromRel { base, addr }` and `AdrFromAbs { addr }`. -/
inductive Address where
  | rel (base : Nat) (addr : Nat)
  | abs (addr : Nat)
deriving DecidableEq, Repr

/-- `AddressTrait::get` — `AdrFromRel` yields `base + addr`, `AdrFromAbs`
yields `addr`. -/
def Address.get : Address → Nat
  | .rel base addr => base + addr
  | .abs addr => addr

/- ===================== BreakpointList (src/debugger.rs lines 11-78) ===================== -/

/-- Embeds `struct Breakpoint` of src/debugger.rs: symbol name, the saved
original instruction word, and the address value used to re-install it. -/
structure Breakpoint where
  sym : String
  inst : Nat
  addr : Address
deriving DecidableEq, Repr

/-- Embeds `struct BreakpointList` of src/debugger.rs. -/
structure BreakpointList where
  breakpoints : List Breakpoint
deriving DecidableEq, Repr

/-- Embeds `BreakpointList::register`: if some entry has the same final
absolute address, return `false` and leave the list alone; otherwise push a
new entry at the end and return `true`.  The pair carries the returned Bool
and the updated list (the Rust method mutates `self`). -/
def BreakpointList.register (l : BreakpointList) (sym : String) (bp : Address)
    (bpInst : Nat) : Bool × BreakpointList :=
  match l.breakpoints.find? (fun b => b.addr.get == bp.get) with
  | some _ => (false, l)
  | none => (true, ⟨l.breakpoints ++ [⟨sym, bpInst, bp⟩]⟩)

/-- Embeds `BreakpointList::search`: linear scan by final absolute address. -/
def BreakpointList.search (l : BreakpointList) (addr : Address) : Option Breakpoint :=
  l.breakpoints.find? (fun b => b.addr.get == addr.get)

/-- Embeds `BreakpointList::has_addr`. -/
def BreakpointList.has_addr (l : BreakpointList) (addr : Address) : Bool :=
  (l.search addr).isSome

/-- Embeds `BreakpointList::delete`: out-of-range index returns `None` and
leaves the list unchanged; otherwise `Vec::remove(index)` returns the entry
at that index and shifts the later entries down. -/
def BreakpointList.delete (l : BreakpointList) (index : Nat) :
    Option Breakpoint × BreakpointList :=
  let len := l.breakpoints.length
  if len = 0 ∨ index ≥ len then (none, l)
  else (l.breakpoints[index]?, ⟨l.breakpoints.eraseIdx index⟩)

/-- One breakpoint-table operation, for reasoning about arbitrary call
sequences against the table. -/
inductive BpOp where
  | reg (sym : String) (addr : Address) (inst : Nat)
  | del (i : Nat)

/-- Apply one table operation (dropping the returned value). -/
def BreakpointList.apply (l : BreakpointList) : BpOp → BreakpointList
  | .reg sym addr inst => (l.register sym addr inst).2
  | .del i => (l.delete i).2

/-- Run a sequence of table operations starting from the empty table built
by `BreakpointList::new`. -/
def BreakpointList.runOps (ops : List BpOp) : BreakpointList :=
  ops.foldl BreakpointList.apply ⟨[]⟩

/- ===================== src/elf/leb128.rs ===================== -/

/-- Embeds `enum LEB128Error`. -/
inductive LEB128Error where
  | DecodeError
deriving DecidableEq, Repr

/-- The loop body of `ULEB128::decode`, recursing over the remaining byte
stream while carrying the accumulator `val`, the byte count `size` and the
current shift amount `s`.  Each input byte is taken `% 256` (it is a `u8`),
the low 7 bits are ORed into the accumulator shifted by `s` with `u64`
truncation, and decoding stops at the first byte whose top bit is clear.
An exhausted stream yields `DecodeError` as in the Rust source. -/
def ULEB128.decodeAux (val size s : Nat) : List Nat → Except LEB128Error (Nat × Nat)
  | [] => .error .DecodeError
  | b :: rest =>
    let bVal := b % 256
    let val' := val ||| ((bVal &&& 0x7F) <<< s) % 2 ^ 64
    if bVal &&& 0x80 = 0 then .ok (size + 1, val')
    else ULEB128.decodeAux val' (size + 1) (s + 7) rest

/-- Embeds `ULEB128::decode` over a byte stream, returning
`(bytes_consumed, value)`. -/
def ULEB128.decode (bytes : List Nat) : Except LEB128Error (Nat × Nat) :=
  ULEB128.decodeAux 0 0 0 bytes

/-- Modelled from the spec: the accumulation of the low 7 bits of each
byte, shifted left by 7 bits per position, starting at position `i`
(`u64` truncation applied to each shifted contribution). -/
def ulebAccumFrom (i : Nat) : List Nat → Nat
  | [] => 0
  | b :: rest => ((b % 256 &&& 0x7F) <<< (7 * i)) % 2 ^ 64 ||| ulebAccumFrom (i + 1) rest

/- ===================== src/elf/elf64.rs ===================== -/

/-- Embeds `enum ShType` of src/elf/elf64.rs (the symbol-table type is
spelled `ShmTab` in the source). -/
inductive ShType where
  | Null
  | Progbit
  | ShmTab
  | StrTab
  | Rela
  | Hash
  | Dynamic
  | Note
  | Nobits
  | Rel
  | Shlib
  | DynSym
  | LoProc
  | HiProc
  | LoUser
  | HiUser
  | Unknown
deriving DecidableEq, BEq, Repr

/-- Embeds `Elf64::to_shtype`. -/
def Elf64.to_shtype (t : Nat) : ShType :=
  if t = 0 then .Null
  else if t = 1 then .Progbit
  else if t = 2 then .ShmTab
  else if t = 3 then .StrTab
  else if t = 4 then .Rela
  else if t = 5 then .Hash
  else if t = 6 then .Dynamic
  else if t = 7 then .Note
  else if t = 8 then .Nobits
  else if t = 9 then .Rel
  else if t = 10 then .Shlib
  else if t = 11 then .DynSym
  else if t = 0x70000000 then .LoProc
  else if t = 0x7FFFFFFF then .HiProc
  else if t = 0x80000000 then .LoUser
  else if t = 0x8FFFFFFF then .HiUser
  else .Unknown

/-- Embeds `struct ElfSecHeader` (numeric fields as Nat, resolved section
name as a string). -/
structure ElfSecHeader where
  sh_name : Nat
  sh_type : Nat
  sh_flags : Nat
  sh_addr : Nat
  sh_offset : Nat
  sh_size : Nat
  sh_link : Nat
  sh_info : Nat
  sh_addralign : Nat
  sh_entsize : Nat
  sh_no : Nat
  sh_rname : String
deriving DecidableEq, Repr

/-- Embeds the section selection inside `Elf64::load_symtab`: the sections
whose classified type is `ShmTab` are collected with `filter`, and
`Vec::pop` then takes the LAST of them (`getLast?`). -/
def Elf64.symtabSection (secs : List ElfSecHeader) : Option ElfSecHeader :=
  (secs.filter (fun s => Elf64.to_shtype s.sh_type == ShType.ShmTab)).getLast?

/-- Embeds the section selection inside `Elf64::read_strtab`: the `StrTab`
sections whose index differs from `e_shstrndx` are collected with `filter`,
and `Vec::pop` then takes the LAST of them. -/
def Elf64.strtabSection (shstrndx : Nat) (secs : List ElfSecHeader) : Option ElfSecHeader :=
  (secs.filter (fun s =>
    Elf64.to_shtype s.sh_type == ShType.StrTab && s.sh_no != shstrndx)).getLast?

/-- Modelled from the spec: "the first section whose classified type is
`SymTab`". -/
def firstSymtabSpec (secs : List ElfSecHeader) : Option ElfSecHeader :=
  secs.find? (fun s => Elf64.to_shtype s.sh_type == ShType.ShmTab)

/-- Modelled from the spec: "the first `StrTab` section whose index is not
`e_shstrndx`". -/
def firstStrtabSpec (shstrndx : Nat) (secs : List ElfSecHeader) : Option ElfSecHeader :=
  secs.find? (fun s =>
    Elf64.to_shtype s.sh_type == ShType.StrTab && s.sh_no != shstrndx)

/-- Embeds `Elf64::to_string` (and the textually identical
`DebugInfoSection::to_string`) at the byte level: skip `offset` bytes, then
take bytes while they are non-NUL.  The Rust code finally converts the
collected bytes with `String::from_utf8`; the byte list collected here is
exactly its input. -/
def Elf64.to_string (buf : List Nat) (offset : Nat) : List Nat :=
  (buf.drop offset).takeWhile (fun c => c != 0)

/- ===================== src/stracer.rs ===================== -/

/-- Embeds `Tracer::to_syscall` with the numeric values of the referenced
x86-64 `libc::SYS_*` constants (the argument is the `i64` cast of
`orig_rax`). -/
def Tracer.to_syscall (no : Int) : String :=
  if no = 0 then "read"
  else if no = 1 then "write"
  else if no = 2 then "open"
  else if no = 3 then "close"
  else if no = 4 then "stat"
  else if no = 5 then "fstat"
  else if no = 9 then "mmap"
  else if no = 11 then "munmap"
  else if no = 12 then "brk"
  else if no = 17 then "pread"
  else if no = 18 then "pwrite"
  else if no = 19 then "readv"
  else if no = 20 then "writev"
  else if no = 21 then "access"
  else if no = 295 then "preadv"
  else if no = 296 then "pwritev"
  else if no = 10 then "mprotect"
  else if no = 158 then "arch_prctl"
  else if no = 60 then "exit"
  else if no = 231 then "exit_group"
  else if no = 257 then "openat"
  else if no = 230 then "clock_nanosleep"
  else if no = 35 then "nanosleep"
  else "unknown system call"

/- ===================== src/elf/dwarf.rs ===================== -/

/-- Embeds `enum DwFormInfo`. -/
inductive DwFormInfo where
  | Unknown
  | Addr
  | Block2
  | Block4
  | Data2
  | Data4
  | Data8
  | String
  | Block
  | Block1
  | Data1
  | Flag
  | Sdata
  | Strp
  | Udata
  | RefAddr
  | Ref1
  | Ref2
  | Ref4
  | Ref8
  | RefUdata
  | Indirect
  | SecOffset
  | Exprloc
  | FlagPresent
  | RefSig8
  | End
deriving DecidableEq, BEq, Repr

/-- Embeds `DwInfo::to_dw_form`. -/
def Dwarf.to_dw_form (form : Nat) : DwFormInfo :=
  if form = 0x0 then .End
  else if form = 0x1 then .Addr
  else if form = 0x3 then .Block2
  else if form = 0x4 then .Block4
  else if form = 0x5 then .Data2
  else if form = 0x6 then .Data4
  else if form = 0x7 then .Data8
  else if form = 0x8 then .String
  else if form = 0x9 then .Block
  else if form = 0xA then .Block1
  else if form = 0xB then .Data1
  else if form = 0xC then .Flag
  else if form = 0xD then .Sdata
  else if form = 0xE then .Strp
  else if form = 0xF then .Udata
  else if form = 0x10 then .RefAddr
  else if form = 0x11 then .Ref1
  else if form = 0x12 then .Ref2
  else if form = 0x13 then .Ref4
  else if form = 0x14 then .Ref8
  else if form = 0x15 then .RefUdata
  else if form = 0x16 then .Indirect
  else if form = 0x17 then .SecOffset
  else if form = 0x18 then .Exprloc
  else if form = 0x19 then .FlagPresent
  else if form = 0x20 then .RefSig8
  else .Unknown

/-- Embeds `struct DebugAbbRevRecord` (all ULEB128 fields as Nat). -/
structure DebugAbbRevRecord where
  abbrev_no : Nat
  tag : Nat
  has_child : Nat
  attr_name : List Nat
  attr_form : List Nat
deriving DecidableEq, Repr

/-- Embeds `struct DebugInfoEntry` (one DIE record).  The source converts
`attr`/`form` to the DWARF enumerations for display via `to_dw_at` /
`to_dw_form`; the raw attribute and form codes read from the abbreviation
record are kept here, `data` is the rendered value text. -/
structure DIE where
  no : Nat
  attr : Nat
  form : Nat
  data : String
deriving DecidableEq, Repr

/-- Take `n` bytes off the front of a byte stream; `none` models the Rust
panic on a short `read_exact`. -/
def readBytes (n : Nat) (bytes : List Nat) : Option (List Nat × List Nat) :=
  if n ≤ bytes.length then some (bytes.take n, bytes.drop n) else none

/-- Little-endian value of a byte list (each entry taken `% 256` as a `u8`),
embedding the `uN::from_le_bytes` conversions. -/
def leVal : List Nat → Nat
  | [] => 0
  | b :: rest => b % 256 + 256 * leVal rest

/-- Renders a byte list as the string `String::from_utf8` would produce for
ASCII content (non-byte values are clamped by `Char.ofNat`). -/
def bytesToString (bs : List Nat) : String :=
  String.mk (bs.map Char.ofNat)

/-- The null-terminated read of the `DwFormInfo::String` arm of
`DebugInfoSection::parse`: bytes are pushed INCLUDING the terminating NUL,
and the count of pushed bytes is the consumed size.  `none` models the
panic on an exhausted stream. -/
def readCString : List Nat → Option (List Nat × Nat × List Nat)
  | [] => none
  | b :: rest =>
    if b % 256 = 0 then some ([b % 256], 1, rest)
    else
      match readCString rest with
      | none => none
      | some (st, n, rest') => some (b % 256 :: st, n + 1, rest')

/-- Embeds one `DW_FORM` arm of the big `match` in
`DebugInfoSection::parse`: given the raw form code, the `.debug_str` bytes
and the remaining `.debug_info` stream, produce the rendered `value_text`,
the number of stream bytes consumed, and the remaining stream.  `none`
models the panics (short read, ULEB failure, unsupported form). -/
def Dwarf.parseForm (form : Nat) (strBuf : List Nat) (bytes : List Nat) :
    Option (String × Nat × List Nat) :=
  match Dwarf.to_dw_form form with
  | .Strp =>
    match readBytes 4 bytes with
    | none => none
    | some (w, rest) => some (bytesToString (Elf64.to_string strBuf (leVal w)), 4, rest)
  | .Addr =>
    match readBytes 8 bytes with
    | none => none
    | some (w, rest) => some (toString (leVal w), 8, rest)
  | .Data1 =>
    match readBytes 1 bytes with
    | none => none
    | some (w, rest) => some (toString (leVal w), 1, rest)
  | .Data2 =>
    match readBytes 2 bytes with
    | none => none
    | some (w, rest) => some (toString (leVal w), 2, rest)
  | .Data4 =>
    match readBytes 4 bytes with
    | none => none
    | some (w, rest) => some (toString (leVal w), 4, rest)
  | .Data8 =>
    match readBytes 8 bytes with
    | none => none
    | some (w, rest) => some (toString (leVal w), 8, rest)
  | .SecOffset =>
    match readBytes 4 bytes with
    | none => none
    | some (w, rest) => some (toString (leVal w), 4, rest)
  | .Ref1 =>
    match readBytes 1 bytes with
    | none => none
    | some (w, rest) => some (toString (leVal w), 1, rest)
  | .Ref2 =>
    match readBytes 2 bytes with
    | none => none
    | some (w, rest) => some (toString (leVal w), 2, rest)
  | .Ref4 =>
    match readBytes 4 bytes with
    | none => none
    | some (w, rest) => some (toString (leVal w), 4, rest)
  | .Ref8 =>
    match readBytes 8 bytes with
    | none => none
    | some (w, rest) => some (toString (leVal w), 8, rest)
  | .Sdata =>
    match ULEB128.decode bytes with
    | .error _ => none
    | .ok (size, data) => some (toString data, size, bytes.drop size)
  | .Udata =>
    match ULEB128.decode bytes with
    | .error _ => none
    | .ok (size, data) => some (toString data, size, bytes.drop size)
  | .String =>
    match readCString bytes with
    | none => none
    | some (st, n, rest) => some (bytesToString st, n, rest)
  | .Exprloc =>
    match ULEB128.decode bytes with
    | .error _ => none
    | .ok (size, data) =>
      match readBytes data (bytes.drop size) with
      | none => none
      | some (_, rest) => some (toString data, size + data, rest)
  | .FlagPresent => some ("flag is presetn", 0, bytes)
  | .End => some ("value: 0", 0, bytes)
  | _ => none

/-- The per-DIE attribute walk of `DebugInfoSection::parse`: for each
`(attr_form, attr_name)` pair of the matching abbreviation record, decode
one value and push one `DebugInfoEntry`. -/
def Dwarf.parseAttrs (no : Nat) (pairs : List (Nat × Nat)) (strBuf : List Nat)
    (bytes : List Nat) : Option (List DIE × Nat × List Nat) :=
  match pairs with
  | [] => some ([], 0, bytes)
  | (form, at_) :: rest =>
    match Dwarf.parseForm form strBuf bytes with
    | none => none
    | some (data, sz, bytes') =>
      match Dwarf.parseAttrs no rest strBuf bytes' with
      | none => none
      | some (dies, sz', bytes'') => some (⟨no, at_, form, data⟩ :: dies, sz + sz', bytes'')

/-- Embeds the DIE-reading loop of `DebugInfoSection::parse`, fueled
because the Rust loop terminates only through its internal length check.
State: the CU's 32-bit `len` field, the loaded abbreviation records, the
`.debug_str` bytes, the running `read_size` counter (starting after the
version/abbrev-offset/address-size prologue fields), the DIEs recorded so
far, and the remaining `.debug_info` stream.  Each round decodes a ULEB128
`abbrev_no`, adds its size to the counter, stops when
`cu_h.len == (read_size + 7) as u32`, skips `abbrev_no == 0` as a null
entry, and otherwise decodes the attributes of abbreviation record
`abbrev_no - 1`.  `none` models a panic or exhausted fuel. -/
def Dwarf.parseDIEs : Nat → Nat → List DebugAbbRevRecord → List Nat → Nat →
    List DIE → List Nat → Option (Nat × List DIE × List Nat)
  | 0, _, _, _, _, _, _ => none
  | fuel + 1, cuLen, abbRecs, strBuf, readSize, dies, bytes =>
    match ULEB128.decode bytes with
    | .error _ => none
    | .ok (size, abbrevNo) =>
      let readSize' := readSize + size
      if cuLen = (readSize' + 7) % 2 ^ 32 then some (readSize', dies, bytes.drop size)
      else if abbrevNo = 0 then
        Dwarf.parseDIEs fuel cuLen abbRecs strBuf readSize' dies (bytes.drop size)
      else
        match abbRecs[abbrevNo - 1]? with
        | none => none
        | some record =>
          match Dwarf.parseAttrs abbrevNo (record.attr_form.zip record.attr_name)
              strBuf (bytes.drop size) with
          | none => none
          | some (newDies, sz, bytes') =>
            Dwarf.parseDIEs fuel cuLen abbRecs strBuf (readSize' + sz)
              (dies ++ newDies) bytes'

/- ===================== Debugger (src/debugger.rs) ===================== -/

/-- The debugger state touched by the breakpoint engine: the load base
address `entry`, the tracee memory as a map from absolute address to the
machine word stored there, the tracee `rip`, and the breakpoint table. -/
structure DbgState where
  entry : Nat
  mem : Nat → Nat
  rip : Nat
  bps : BreakpointList

/-- Embeds `Debugger::read_mem` (a `ptrace::read` returns one 64-bit
machine word). -/
def DbgState.read_mem (st : DbgState) (addr : Address) : Nat :=
  st.mem addr.get % 2 ^ 64

/-- Embeds `Debugger::write_mem`. -/
def DbgState.write_mem (st : DbgState) (addr : Address) (val : Nat) : DbgState :=
  { st with mem := fun a => if a = addr.get then val else st.mem a }

/-- Embeds `Debugger::to_sym_addr` (`addr - self.entry` on `usize`). -/
def DbgState.to_sym_addr (st : DbgState) (addr : Nat) : Nat :=
  addr - st.entry

/-- Embeds `Debugger::breakpoint`: build `AdrFromRel::new(entry, addr)`,
read the word `inst` there, write back
`(0xFFFF_FFFF_FFFF_FF00 & inst) | 0xCC`, and register
`(sym, address, inst)` in the table. -/
def Debugger.breakpoint (st : DbgState) (addr : Nat) (sym : String) : DbgState :=
  let address := Address.rel st.entry addr
  let inst := st.read_mem address
  let intCode := 0xFFFFFFFFFFFFFF00 &&& inst ||| 0xCC
  let st' := st.write_mem address intCode
  { st' with bps := (st'.bps.register sym address inst).2 }

/-- Embeds `Debugger::release_break`: delete the breakpoint at `index`; if
one was there, write its saved instruction word back and return `true`. -/
def Debugger.release_break (st : DbgState) (index : Nat) : Bool × DbgState :=
  match st.bps.delete index with
  | (none, _) => (false, st)
  | (some bp, bps') => (true, { st.write_mem bp.addr bp.inst with bps := bps' })

/-- Embeds `Debugger::recover_bp` in its `WaitStatus::Stopped` branch:
restore the saved word at the hit address, reset `rip` there, single-step
(the step is assumed not to write the patched text word), then re-install
the same breakpoint via `Debugger::breakpoint` at
`to_sym_addr(bp.addr.get())`.  `none` models the `unwrap` panic when the
address has no table entry. -/
def Debugger.recover_bp (st : DbgState) (ripBp : Address) : Option DbgState :=
  match st.bps.search ripBp with
  | none => none
  | some bpInfo =>
    let st1 := st.write_mem ripBp bpInfo.inst
    let st2 := { st1 with rip := ripBp.get }
    some (Debugger.breakpoint st2 (st2.to_sym_addr bpInfo.addr.get) bpInfo.sym)

/-- Embeds the general-purpose register block (`libc::user_regs_struct`)
as far as the shell touches it. -/
structure UserRegs where
  orig_rax : Nat
  rip : Nat
  rsp : Nat
  r15 : Nat
  r14 : Nat
  r13 : Nat
  r12 : Nat
  r11 : Nat
  r10 : Nat
  r9 : Nat
  r8 : Nat
  rax : Nat
  rcx : Nat
  rdx : Nat
  rsi : Nat
  rdi : Nat
  cs : Nat
  eflags : Nat
  ss : Nat
  fs_base : Nat
  gs_base : Nat
  ds : Nat
  es : Nat
  fs : Nat
  gs : Nat
deriving DecidableEq, Repr

/-- One decimal digit of `str::parse::<usize>`. -/
def decDigit? (c : Char) : Option Nat :=
  if '0' ≤ c ∧ c ≤ '9' then some (c.toNat - 48) else none

/-- One hexadecimal digit of `u64::from_str_radix(_, 16)`. -/
def hexDigit? (c : Char) : Option Nat :=
  if '0' ≤ c ∧ c ≤ '9' then some (c.toNat - 48)
  else if 'a' ≤ c ∧ c ≤ 'f' then some (c.toNat - 87)
  else if 'A' ≤ c ∧ c ≤ 'F' then some (c.toNat - 55)
  else none

/-- Fold a digit list in the given radix, failing on any non-digit. -/
def foldDigits (digit? : Char → Option Nat) (radix : Nat) : List Char → Nat → Option Nat
  | [], acc => some acc
  | c :: rest, acc =>
    match digit? c with
    | none => none
    | some d => foldDigits digit? radix rest (acc * radix + d)

/-- Embeds Rust `str::parse::<usize>`: an optional leading `+`, then a
non-empty run of decimal digits; values outside the 64-bit `usize` range
fail. -/
def parseUsize (s : String) : Option Nat :=
  let cs := match s.toList with
    | '+' :: rest => rest
    | l => l
  if cs.isEmpty then none
  else
    match foldDigits decDigit? 10 cs 0 with
    | none => none
    | some v => if v < 2 ^ 64 then some v else none

/-- Embeds Rust `u64::from_str_radix(s, 16)`: an optional leading `+`,
then a non-empty run of hex digits; values above `u64::MAX` fail. -/
def fromStrRadix16 (s : String) : Option Nat :=
  let cs := match s.toList with
    | '+' :: rest => rest
    | l => l
  if cs.isEmpty then none
  else
    match foldDigits hexDigit? 16 cs 0 with
    | none => none
    | some v => if v < 2 ^ 64 then some v else none

/-- Embeds Rust `str::trim_start_matches("0x")`, which strips the prefix
repeatedly. -/
def trimStart0x : List Char → List Char
  | '0' :: 'x' :: rest => trimStart0x rest
  | l => l

/-- Embeds `Debugger::sh_release_break`: the index argument is parsed with
`parse::<usize>().unwrap()` — `none` models the panic on a malformed
index; otherwise `release_break` runs. -/
def Debugger.sh_release_break (st : DbgState) (no : String) : Option (Bool × DbgState) :=
  match parseUsize no with
  | none => none
  | some index => some (Debugger.release_break st index)

/-- Embeds `Debugger::set_regs`: parse the hex value after stripping `0x`;
on a parse error print and return with no register write; on an unknown
register name print and return with no register write; otherwise update
the named register and call `write_regs`.  The result is the register
block handed to `write_regs`, or `none` when no write happens. -/
def Debugger.set_regs (regs : UserRegs) (reg : String) (val : String) : Option UserRegs :=
  match fromStrRadix16 (String.mk (trimStart0x val.toList)) with
  | none => none
  | some v =>
    if reg = "orig_rax" then some { regs with orig_rax := v }
    else if reg = "rip" then some { regs with rip := v }
    else if reg = "rsp" then some { regs with rsp := v }
    else if reg = "r15" then some { regs with r15 := v }
    else if reg = "r14" then some { regs with r14 := v }
    else if reg = "r13" then some { regs with r13 := v }
    else if reg = "r12" then some { regs with r12 := v }
    else if reg = "r11" then some { regs with r11 := v }
    else if reg = "r10" then some { regs with r10 := v }
    else if reg = "r9" then some { regs with r9 := v }
    else if reg = "r8" then some { regs with r8 := v }
    else if reg = "rax" then some { regs with rax := v }
    else if reg = "rcx" then some { regs with rcx := v }
    else if reg = "rdx" then some { regs with rdx := v }
    else if reg = "rsi" then some { regs with rsi := v }
    else if reg = "rdi" then some { regs with rdi := v }
    else if reg = "cs" then some { regs with cs := v }
    else if reg = "eflags" then some { regs with eflags := v }
    else if reg = "ss" then some { regs with ss := v }
    else if reg = "fs_base" then some { regs with fs_base := v }
    else if reg = "gs_base" then some { regs with gs_base := v }
    else if reg = "ds" then some { regs with ds := v }
    else if reg = "es" then some { regs with es := v }
    else if reg = "fs" then some { regs with fs := v }
    else if reg = "gs" then some { regs with gs := v }
    else none

/-- The closed list of register names `Debugger::set_regs` recognizes. -/
def regNames : List String :=
  ["orig_rax", "rip", "rsp", "r15", "r14", "r13", "r12", "r11", "r10",
   "r9", "r8", "rax", "rcx", "rdx", "rsi", "rdi", "cs", "eflags", "ss",
   "fs_base", "gs_base", "ds", "es", "fs", "gs"]

/-- The final absolute addresses currently held in a breakpoint table. -/
def BreakpointList.addrList (l : BreakpointList) : List Nat :=
  l.breakpoints.map (fun b => b.addr.get)

/- ===================== ULEB128 lemmas (C3) ===================== -/

theorem uleb_decodeAux_cont (b : Nat) (rest : List Nat) (val size s : Nat)
    (hb : b % 256 &&& 0x80 ≠ 0) :
    ULEB128.decodeAux val size s (b :: rest) =
      ULEB128.decodeAux (val ||| (b % 256 &&& 0x7F) <<< s % 2 ^ 64) (size + 1) (s + 7) rest := by
  simp [ULEB128.decodeAux, hb]

theorem uleb_decodeAux_stop (b : Nat) (rest : List Nat) (val size s : Nat)
    (hb : b % 256 &&& 0x80 = 0) :
    ULEB128.decodeAux val size s (b :: rest) =
      .ok (size + 1, val ||| (b % 256 &&& 0x7F) <<< s % 2 ^ 64) := by
  simp [ULEB128.decodeAux, hb]

theorem uleb_decodeAux_append (pre : List Nat) (t : Nat) (rest : List Nat)
    (hpre : ∀ b ∈ pre, b % 256 &&& 0x80 ≠ 0) (ht : t % 256 &&& 0x80 = 0) :
    ∀ val size i, ULEB128.decodeAux val size (7 * i) (pre ++ t :: rest) =
      .ok (size + (pre.length + 1), val ||| ulebAccumFrom i (pre ++ [t])) := by
  induction pre with
  | nil =>
    intro val size i
    rw [List.nil_append, uleb_decodeAux_stop t rest val size (7 * i) ht]
    simp [ulebAccumFrom]
  | cons p pre ih =>
    intro val size i
    have hp : p % 256 &&& 0x80 ≠ 0 := hpre p (List.mem_cons_self p pre)
    rw [List.cons_append, uleb_decodeAux_cont p _ val size (7 * i) hp]
    have h7 : 7 * i + 7 = 7 * (i + 1) := by ring
    rw [h7, ih (fun b hb => hpre b (List.mem_cons_of_mem p hb)) _ (size + 1) (i + 1)]
    have hlen : size + 1 + (pre.length + 1) = size + ((p :: pre).length + 1) := by
      simp [List.length_cons]; omega
    rw [hlen]
    have hacc : val ||| (p % 256 &&& 0x7F) <<< (7 * i) % 2 ^ 64 |||
        ulebAccumFrom (i + 1) (pre ++ [t]) =
        val ||| ulebAccumFrom i ((p :: pre) ++ [t]) := by
      show _ = val ||| ulebAccumFrom i (p :: (pre ++ [t]))
      rw [ulebAccumFrom, Nat.lor_assoc]
    rw [hacc]

theorem uleb_decodeAux_exhaust (bytes : List Nat)
    (h : ∀ b ∈ bytes, b % 256 &&& 0x80 ≠ 0) :
    ∀ val size s, ULEB128.decodeAux val size s bytes = .error LEB128Error.DecodeError := by
  induction bytes with
  | nil => intro val size s; rfl
  | cons b rest ih =>
    intro val size s
    rw [uleb_decodeAux_cont b rest val size s (h b (List.mem_cons_self b rest))]
    exact ih (fun x hx => h x (List.mem_cons_of_mem b hx)) _ _ _

/-- C3: ULEB128 decode returns `(bytes_consumed, value)` with the value
accumulated from the low 7 bits of each consumed byte shifted by 7 bits
per position, consumption stopping at the first byte whose top bit is
clear; decoding fails with `DecodeError` when the source is exhausted
before a terminating byte; and the five spot vectors decode as the spec
states. -/
theorem uleb128_decode_correct :
    (∀ pre t rest, (∀ b ∈ pre, b % 256 &&& 0x80 ≠ 0) → t % 256 &&& 0x80 = 0 →
      ULEB128.decode (pre ++ t :: rest) =
        .ok (pre.length + 1, ulebAccumFrom 0 (pre ++ [t])))
    ∧ (∀ bytes, (∀ b ∈ bytes, b % 256 &&& 0x80 ≠ 0) →
      ULEB128.decode bytes = .error LEB128Error.DecodeError)
    ∧ ULEB128.decode [0x00] = .ok (1, 0)
    ∧ ULEB128.decode [0x01] = .ok (1, 1)
    ∧ ULEB128.decode [0x7F] = .ok (1, 127)
    ∧ ULEB128.decode [0xE5, 0x8E, 0x26] = .ok (3, 624485)
    ∧ ULEB128.decode [0xEA, 0x93, 0x21] = .ok (3, 543210) := by
  refine ⟨?_, ?_, rfl, rfl, rfl, rfl, rfl⟩
  · intro pre t rest hpre ht
    have h := uleb_decodeAux_append pre t rest hpre ht 0 0 0
    simpa [ULEB128.decode] using h
  · intro bytes h
    exact uleb_decodeAux_exhaust bytes h 0 0 0

/-- Witness for C3 at concrete inputs. -/
theorem uleb128_decode_correct_witness :
    ULEB128.decode ([0xE5, 0x8E] ++ 0x26 :: []) =
      .ok ([0xE5, 0x8E].length + 1, ulebAccumFrom 0 ([0xE5, 0x8E] ++ [0x26]))
    ∧ ULEB128.decode [0x80, 0x81] = .error LEB128Error.DecodeError :=
  ⟨uleb128_decode_correct.1 [0xE5, 0x8E] 0x26 [] (by decide) (by decide),
   uleb128_decode_correct.2.1 [0x80, 0x81] (by decide)⟩

/- ===================== Breakpoint table lemmas (C1) ===================== -/

theorem register_of_dup (l : BreakpointList) (sym : String) (bp : Address) (inst : Nat)
    (h : ∃ b ∈ l.breakpoints, b.addr.get = bp.get) :
    l.register sym bp inst = (false, l) := by
  obtain ⟨b, hb, hba⟩ := h
  unfold BreakpointList.register
  cases hfind : l.breakpoints.find? (fun b => b.addr.get == bp.get) with
  | some _ => rfl
  | none =>
    exact absurd (by simpa using hba) (List.find?_eq_none.mp hfind b hb)

theorem register_of_fresh (l : BreakpointList) (sym : String) (bp : Address) (inst : Nat)
    (h : ∀ b ∈ l.breakpoints, b.addr.get ≠ bp.get) :
    l.register sym bp inst = (true, ⟨l.breakpoints ++ [⟨sym, inst, bp⟩]⟩) := by
  unfold BreakpointList.register
  cases hfind : l.breakpoints.find? (fun b => b.addr.get == bp.get) with
  | none => rfl
  | some b =>
    have hb := List.mem_of_find?_eq_some hfind
    have hba := List.find?_some hfind
    simp only [beq_iff_eq] at hba
    exact absurd hba (h b hb)

theorem delete_oob (l : BreakpointList) (i : Nat) (h : l.breakpoints.length ≤ i) :
    l.delete i = (none, l) := by
  unfold BreakpointList.delete
  rw [if_pos (Or.inr h)]

theorem delete_in_range (l : BreakpointList) (i : Nat) (h : i < l.breakpoints.length) :
    l.delete i = (l.breakpoints[i]?,
      ⟨l.breakpoints.take i ++ l.breakpoints.drop (i + 1)⟩) := by
  unfold BreakpointList.delete
  rw [if_neg (by omega), List.eraseIdx_eq_take_drop_succ]

theorem apply_nodup (l : BreakpointList) (op : BpOp)
    (h : l.addrList.Nodup) : (l.apply op).addrList.Nodup := by
  cases op with
  | reg sym addr inst =>
    show ((l.register sym addr inst).2).addrList.Nodup
    unfold BreakpointList.register
    cases hfind : l.breakpoints.find? (fun b => b.addr.get == addr.get) with
    | some _ => exact h
    | none =>
      have hmem : addr.get ∉ l.addrList := by
        intro hmem
        obtain ⟨b, hb, hba⟩ := List.mem_map.mp hmem
        exact List.find?_eq_none.mp hfind b hb (by simpa using hba)
      show (BreakpointList.addrList ⟨l.breakpoints ++ [⟨sym, inst, addr⟩]⟩).Nodup
      unfold BreakpointList.addrList at *
      rw [List.map_append, List.nodup_append]
      refine ⟨h, List.nodup_singleton _, ?_⟩
      intro a ha hb
      simp only [List.map_cons, List.map_nil, List.mem_singleton] at hb
      subst hb
      exact hmem ha
  | del i =>
    show ((l.delete i).2).addrList.Nodup
    unfold BreakpointList.delete
    by_cases hc : l.breakpoints.length = 0 ∨ i ≥ l.breakpoints.length
    · rw [if_pos hc]; exact h
    · rw [if_neg hc]
      exact ((List.eraseIdx_sublist l.breakpoints i).map _).nodup h

theorem foldl_apply_nodup (ops : List BpOp) :
    ∀ l : BreakpointList, l.addrList.Nodup →
      (ops.foldl BreakpointList.apply l).addrList.Nodup := by
  induction ops with
  | nil => intro l h; exact h
  | cons op ops ih =>
    intro l h
    exact ih (l.apply op) (apply_nodup l op h)

/-- C1: `register` rejects a duplicate final absolute address and leaves
the table unchanged, otherwise appends and returns true; `delete` returns
none for an out-of-range index and otherwise removes exactly the entry at
that index, keeping the surviving entries in order; and after any sequence
of table operations starting from the empty table, the table holds at most
one breakpoint per final absolute address. -/
theorem breakpoint_table_ops :
    (∀ (l : BreakpointList) sym bp inst, (∃ b ∈ l.breakpoints, b.addr.get = bp.get) →
      l.register sym bp inst = (false, l))
    ∧ (∀ (l : BreakpointList) sym bp inst, (∀ b ∈ l.breakpoints, b.addr.get ≠ bp.get) →
      l.register sym bp inst = (true, ⟨l.breakpoints ++ [⟨sym, inst, bp⟩]⟩))
    ∧ (∀ (l : BreakpointList) i, l.breakpoints.length ≤ i → l.delete i = (none, l))
    ∧ (∀ (l : BreakpointList) i, i < l.breakpoints.length →
      l.delete i = (l.breakpoints[i]?,
        ⟨l.breakpoints.take i ++ l.breakpoints.drop (i + 1)⟩))
    ∧ (∀ ops, (BreakpointList.runOps ops).addrList.Nodup) :=
  ⟨register_of_dup, register_of_fresh, delete_oob, delete_in_range,
   fun ops => foldl_apply_nodup ops ⟨[]⟩ List.nodup_nil⟩

/-- Witness for C1 at concrete inputs. -/
theorem breakpoint_table_ops_witness :
    BreakpointList.register ⟨[⟨"main", 5, .rel 100 9⟩]⟩ "f" (.abs 109) 7 =
      (false, ⟨[⟨"main", 5, .rel 100 9⟩]⟩)
    ∧ BreakpointList.register ⟨[⟨"main", 5, .rel 100 9⟩]⟩ "g" (.abs 200) 7 =
      (true, ⟨[⟨"main", 5, .rel 100 9⟩] ++ [⟨"g", 7, .abs 200⟩]⟩)
    ∧ BreakpointList.delete ⟨[⟨"main", 5, .rel 100 9⟩]⟩ 3 =
      (none, ⟨[⟨"main", 5, .rel 100 9⟩]⟩)
    ∧ BreakpointList.delete ⟨[⟨"main", 5, .rel 100 9⟩]⟩ 0 =
      ([(⟨"main", 5, .rel 100 9⟩ : Breakpoint)][0]?,
        ⟨[⟨"main", 5, .rel 100 9⟩].take 0 ++ [⟨"main", 5, .rel 100 9⟩].drop 1⟩) :=
  ⟨breakpoint_table_ops.1 _ "f" (.abs 109) 7 (by decide),
   breakpoint_table_ops.2.1 _ "g" (.abs 200) 7 (by decide),
   breakpoint_table_ops.2.2.1 _ 3 (by decide),
   breakpoint_table_ops.2.2.2.1 _ 0 (by decide)⟩

/- ===================== Patch arithmetic lemmas (C2) ===================== -/

theorem mask_and_eq (W : Nat) (hW : W < 2 ^ 64) :
    0xFFFFFFFFFFFFFF00 &&& W = 2 ^ 8 * (W / 2 ^ 8) := by
  have hM : (0xFFFFFFFFFFFFFF00 : Nat) = 2 ^ 8 * (2 ^ 56 - 1) := by norm_num
  have hdiv : W / 2 ^ 8 = W >>> 8 := (Nat.shiftRight_eq_div_pow W 8).symm
  apply Nat.eq_of_testBit_eq
  intro i
  rw [hM, hdiv, Nat.testBit_and, Nat.testBit_mul_pow_two, Nat.testBit_mul_pow_two,
    Nat.testBit_shiftRight, Nat.testBit_two_pow_sub_one]
  by_cases h8 : 8 ≤ i
  · by_cases h64 : i < 64
    · have h56 : i - 8 < 56 := by omega
      have hi : 8 + (i - 8) = i := by omega
      simp [ge_iff_le, h8, h56, hi]
    · have hle : 2 ^ 64 ≤ 2 ^ i := Nat.pow_le_pow_right (by norm_num) (by omega)
      have hw : W.testBit i = false := Nat.testBit_lt_two_pow (lt_of_lt_of_le hW hle)
      have h56 : ¬ (i - 8 < 56) := by omega
      have hi : 8 + (i - 8) = i := by omega
      simp [ge_iff_le, h8, h56, hi, hw]
  · simp [ge_iff_le, h8]

theorem patch_value (W : Nat) (hW : W < 2 ^ 64) :
    0xFFFFFFFFFFFFFF00 &&& W ||| 0xCC = 2 ^ 8 * (W / 2 ^ 8) + 0xCC := by
  rw [mask_and_eq W hW]
  exact (Nat.mul_add_lt_is_or (by norm_num) (W / 2 ^ 8)).symm

/-- C2: installing a breakpoint at relative address `r` with load base
`entry` reads the word `W` at `A = entry + r`, writes back a word whose
low byte is the trap opcode `0xCC` and whose remaining bits equal those of
`W` (that is, `(W & ~0xFF) | 0xCC`), and registers the triple
`(sym, A, W)` in the breakpoint table (when `A` is not already
registered; `register` otherwise rejects the duplicate). -/
theorem breakpoint_patch_and_register :
    ∀ (st : DbgState) (r : Nat) (sym : String),
      ((Debugger.breakpoint st r sym).mem (st.entry + r) =
          0xFFFFFFFFFFFFFF00 &&& st.read_mem (Address.rel st.entry r) ||| 0xCC
      ∧ (Debugger.breakpoint st r sym).mem (st.entry + r) % 256 = 0xCC
      ∧ (Debugger.breakpoint st r sym).mem (st.entry + r) / 256 =
          st.read_mem (Address.rel st.entry r) / 256)
      ∧ ((∀ b ∈ st.bps.breakpoints, b.addr.get ≠ st.entry + r) →
        (Debugger.breakpoint st r sym).bps.breakpoints =
          st.bps.breakpoints ++
            [⟨sym, st.read_mem (Address.rel st.entry r), Address.rel st.entry r⟩]) := by
  intro st r sym
  have hmem : (Debugger.breakpoint st r sym).mem (st.entry + r) =
      0xFFFFFFFFFFFFFF00 &&& st.read_mem (Address.rel st.entry r) ||| 0xCC := by
    simp [Debugger.breakpoint, DbgState.write_mem, Address.get]
  have hW : st.read_mem (Address.rel st.entry r) < 2 ^ 64 :=
    Nat.mod_lt _ (by norm_num)
  have hval := patch_value (st.read_mem (Address.rel st.entry r)) hW
  refine ⟨⟨hmem, ?_, ?_⟩, ?_⟩
  · rw [hmem, hval]; omega
  · rw [hmem, hval]; omega
  · intro h
    show ((st.write_mem (Address.rel st.entry r) _).bps.register sym
        (Address.rel st.entry r) (st.read_mem (Address.rel st.entry r))).2.breakpoints = _
    have hbps : (st.write_mem (Address.rel st.entry r)
        (0xFFFFFFFFFFFFFF00 &&& st.read_mem (Address.rel st.entry r) ||| 0xCC)).bps =
        st.bps := rfl
    rw [hbps, register_of_fresh st.bps sym (Address.rel st.entry r)
      (st.read_mem (Address.rel st.entry r)) (fun b hb => by
        show b.addr.get ≠ st.entry + r
        exact h b hb)]

/-- Witness for C2 at a concrete state. -/
theorem breakpoint_patch_and_register_witness :
    (Debugger.breakpoint ⟨100, fun _ => 0x11223344, 0, ⟨[]⟩⟩ 9 "main").bps.breakpoints =
      (⟨[]⟩ : BreakpointList).breakpoints ++
        [⟨"main", (⟨100, fun _ => 0x11223344, 0, ⟨[]⟩⟩ : DbgState).read_mem
          (Address.rel 100 9), Address.rel 100 9⟩] :=
  (breakpoint_patch_and_register ⟨100, fun _ => 0x11223344, 0, ⟨[]⟩⟩ 9 "main").2
    (by intro b hb; cases hb)

/- ===================== Section selection lemmas (C4) ===================== -/

theorem filter_getLast_eq_find_reverse {α : Type} (p : α → Bool) :
    ∀ l : List α, (l.filter p).getLast? = l.reverse.find? p := by
  intro l
  induction l with
  | nil => rfl
  | cons x l ih =>
    rw [List.reverse_cons, List.find?_append]
    cases hp : p x with
    | true =>
      rw [List.filter_cons_of_pos hp, List.getLast?_cons, ih]
      cases hfl : l.reverse.find? p with
      | none => simp [List.find?, hp]
      | some y => simp
    | false =>
      rw [List.filter_cons_of_neg (by simp [hp]), ih]
      cases hfl : l.reverse.find? p with
      | none => simp [List.find?, hp]
      | some y => simp

/-- C4 counterexample: with two sections classified `SymTab` (or two
non-shstrtab `StrTab` sections), the loaded section is not the first one
— `filter(..).pop()` takes the last. -/
theorem section_selection_cex :
    Elf64.symtabSection
        [⟨0, 2, 0, 0, 0, 0, 0, 0, 0, 0, 1, ""⟩, ⟨0, 2, 0, 0, 0, 0, 0, 0, 0, 0, 2, ""⟩] ≠
      firstSymtabSpec
        [⟨0, 2, 0, 0, 0, 0, 0, 0, 0, 0, 1, ""⟩, ⟨0, 2, 0, 0, 0, 0, 0, 0, 0, 0, 2, ""⟩]
    ∧ Elf64.strtabSection 0
        [⟨0, 3, 0, 0, 0, 0, 0, 0, 0, 0, 1, ""⟩, ⟨0, 3, 0, 0, 0, 0, 0, 0, 0, 0, 2, ""⟩] ≠
      firstStrtabSpec 0
        [⟨0, 3, 0, 0, 0, 0, 0, 0, 0, 0, 1, ""⟩, ⟨0, 3, 0, 0, 0, 0, 0, 0, 0, 0, 2, ""⟩] := by
  constructor <;> decide

/-- C4 amended: the symbol table used by `load()` is the LAST section
whose classified type is `SymTab`, and the string table used for symbol
names is the LAST `StrTab` section whose index is not `e_shstrndx`
(`filter` + `Vec::pop`). -/
theorem section_selection_last :
    ∀ (secs : List ElfSecHeader) (shstrndx : Nat),
      Elf64.symtabSection secs =
        secs.reverse.find? (fun s => Elf64.to_shtype s.sh_type == ShType.ShmTab)
      ∧ Elf64.strtabSection shstrndx secs =
        secs.reverse.find? (fun s =>
          Elf64.to_shtype s.sh_type == ShType.StrTab && s.sh_no != shstrndx) := by
  intro secs shstrndx
  exact ⟨filter_getLast_eq_find_reverse _ secs, filter_getLast_eq_find_reverse _ secs⟩

/- ===================== DIE loop lemmas (C5) ===================== -/

theorem parseAttrs_no_eq (no : Nat) :
    ∀ (pairs : List (Nat × Nat)) (strBuf bytes : List Nat)
      (out : List DIE × Nat × List Nat),
      Dwarf.parseAttrs no pairs strBuf bytes = some out →
      ∀ d ∈ out.1, d.no = no := by
  intro pairs
  induction pairs with
  | nil =>
    intro strBuf bytes out h d hd
    simp only [Dwarf.parseAttrs] at h
    injection h with h
    subst h
    exact absurd hd (List.not_mem_nil d)
  | cons pr rest ih =>
    intro strBuf bytes out h d hd
    obtain ⟨form, at_⟩ := pr
    simp only [Dwarf.parseAttrs] at h
    cases hform : Dwarf.parseForm form strBuf bytes with
    | none => simp only [hform] at h; exact Option.noConfusion h
    | some res =>
      obtain ⟨data, sz, bytes1⟩ := res
      simp only [hform] at h
      cases hrest : Dwarf.parseAttrs no rest strBuf bytes1 with
      | none => simp only [hrest] at h; exact Option.noConfusion h
      | some res2 =>
        obtain ⟨dies1, sz1, bytes2⟩ := res2
        simp only [hrest] at h
        injection h with h
        subst h
        rcases List.mem_cons.mp hd with h1 | h2
        · rw [h1]
        · exact ih strBuf bytes1 (dies1, sz1, bytes2) hrest d h2

theorem parseDIEs_stop_eq :
    ∀ (fuel cuLen : Nat) (abbRecs : List DebugAbbRevRecord) (strBuf : List Nat)
      (readSize : Nat) (dies : List DIE) (bytes : List Nat)
      (out : Nat × List DIE × List Nat),
      Dwarf.parseDIEs fuel cuLen abbRecs strBuf readSize dies bytes = some out →
      cuLen = (out.1 + 7) % 2 ^ 32 := by
  intro fuel
  induction fuel with
  | zero =>
    intro cuLen abbRecs strBuf readSize dies bytes out h
    exact absurd h (by simp [Dwarf.parseDIEs])
  | succ n ih =>
    intro cuLen abbRecs strBuf readSize dies bytes out h
    simp only [Dwarf.parseDIEs] at h
    split at h
    · exact absurd h (by simp)
    · rename_i size abbrevNo hdec
      split at h
      · rename_i hstop
        injection h with h
        subst h
        exact hstop
      · split at h
        · exact ih _ _ _ _ _ _ _ h
        · split at h
          · exact absurd h (by simp)
          · split at h
            · exact absurd h (by simp)
            · exact ih _ _ _ _ _ _ _ h

theorem parseDIEs_null_skip (fuel cuLen : Nat) (abbRecs : List DebugAbbRevRecord)
    (strBuf : List Nat) (readSize : Nat) (dies : List DIE) (bytes : List Nat) (size : Nat)
    (hdec : ULEB128.decode bytes = .ok (size, 0))
    (hne : cuLen ≠ (readSize + size + 7) % 2 ^ 32) :
    Dwarf.parseDIEs (fuel + 1) cuLen abbRecs strBuf readSize dies bytes =
      Dwarf.parseDIEs fuel cuLen abbRecs strBuf (readSize + size) dies (bytes.drop size) := by
  simp only [Dwarf.parseDIEs, hdec]
  rw [if_neg hne]
  split
  · rfl
  · rename_i hfalse
    exact absurd trivial hfalse

theorem parseDIEs_no_null :
    ∀ (fuel cuLen : Nat) (abbRecs : List DebugAbbRevRecord) (strBuf : List Nat)
      (readSize : Nat) (dies : List DIE) (bytes : List Nat)
      (out : Nat × List DIE × List Nat),
      Dwarf.parseDIEs fuel cuLen abbRecs strBuf readSize dies bytes = some out →
      (∀ d ∈ dies, d.no ≠ 0) → ∀ d ∈ out.2.1, d.no ≠ 0 := by
  intro fuel
  induction fuel with
  | zero =>
    intro cuLen abbRecs strBuf readSize dies bytes out h
    exact absurd h (by simp [Dwarf.parseDIEs])
  | succ n ih =>
    intro cuLen abbRecs strBuf readSize dies bytes out h hd
    simp only [Dwarf.parseDIEs] at h
    split at h
    · exact absurd h (by simp)
    · rename_i size abbrevNo hdec
      split at h
      · injection h with h
        subst h
        exact hd
      · split at h
        · exact ih _ _ _ _ _ _ _ h hd
        · rename_i hnz
          split at h
          · exact absurd h (by simp)
          · rename_i record hrec
            split at h
            · exact absurd h (by simp)
            · rename_i newDies sz bytes1 hattrs
              refine ih _ _ _ _ _ _ _ h ?_
              intro d hdm
              rcases List.mem_append.mp hdm with h1 | h2
              · exact hd d h1
              · rw [parseAttrs_no_eq abbrevNo _ strBuf _ (newDies, sz, bytes1) hattrs d h2]
                exact hnz

/-- C5: the DIE-reading loop of `DebugInfoSection::parse` terminates (with
a result) exactly when the running byte count plus 7 equals the CU's
32-bit length field — any successful run ends with
`cu_len = (read_size + 7) as u32`, and at any point where that equality
holds after reading an `abbrev_no` the loop stops — and a DIE whose
leading ULEB128 `abbrev_no` is 0 is skipped without being recorded, so
every recorded DIE carries a non-zero `abbrev_no`. -/
theorem die_loop_termination :
    (∀ (fuel cuLen : Nat) (abbRecs : List DebugAbbRevRecord) (strBuf : List Nat)
      (readSize : Nat) (dies : List DIE) (bytes : List Nat)
      (out : Nat × List DIE × List Nat),
      Dwarf.parseDIEs fuel cuLen abbRecs strBuf readSize dies bytes = some out →
      cuLen = (out.1 + 7) % 2 ^ 32)
    ∧ (∀ (fuel cuLen : Nat) (abbRecs : List DebugAbbRevRecord) (strBuf : List Nat)
      (readSize : Nat) (dies : List DIE) (bytes : List Nat) (size abbrevNo : Nat),
      ULEB128.decode bytes = .ok (size, abbrevNo) →
      cuLen = (readSize + size + 7) % 2 ^ 32 →
      Dwarf.parseDIEs (fuel + 1) cuLen abbRecs strBuf readSize dies bytes =
        some (readSize + size, dies, bytes.drop size))
    ∧ (∀ (fuel cuLen : Nat) (abbRecs : List DebugAbbRevRecord) (strBuf : List Nat)
      (readSize : Nat) (dies : List DIE) (bytes : List Nat) (size : Nat),
      ULEB128.decode bytes = .ok (size, 0) →
      cuLen ≠ (readSize + size + 7) % 2 ^ 32 →
      Dwarf.parseDIEs (fuel + 1) cuLen abbRecs strBuf readSize dies bytes =
        Dwarf.parseDIEs fuel cuLen abbRecs strBuf (readSize + size) dies (bytes.drop size))
    ∧ (∀ (fuel cuLen : Nat) (abbRecs : List DebugAbbRevRecord) (strBuf : List Nat)
      (readSize : Nat) (bytes : List Nat) (out : Nat × List DIE × List Nat),
      Dwarf.parseDIEs fuel cuLen abbRecs strBuf readSize [] bytes = some out →
      ∀ d ∈ out.2.1, d.no ≠ 0) := by
  refine ⟨parseDIEs_stop_eq, ?_, parseDIEs_null_skip, ?_⟩
  · intro fuel cuLen abbRecs strBuf readSize dies bytes size abbrevNo hdec hstop
    simp only [Dwarf.parseDIEs, hdec]
    rw [if_pos hstop]
  · intro fuel cuLen abbRecs strBuf readSize bytes out h
    exact parseDIEs_no_null fuel cuLen abbRecs strBuf readSize [] bytes out h
      (fun d hd => absurd hd (List.not_mem_nil d))

/-- Witness for C5 at concrete inputs: a CU whose length field is 8 stops
right after the first (null) abbrev number; a longer CU skips the null
entry without recording it. -/
theorem die_loop_termination_witness :
    (8 : Nat) = ((1 : Nat) + 7) % 2 ^ 32
    ∧ Dwarf.parseDIEs 1 8 [] [] 0 [] [0] = some (0 + 1, [], [0].drop 1)
    ∧ Dwarf.parseDIEs 2 100 [] [] 0 [] [0, 0] = Dwarf.parseDIEs 1 100 [] [] (0 + 1) [] ([0, 0].drop 1)
    ∧ (∀ d ∈ ((1 : Nat), ([] : List DIE), ([] : List Nat)).2.1, d.no ≠ 0) :=
  ⟨die_loop_termination.1 1 8 [] [] 0 [] [0] (1, [], []) rfl,
   die_loop_termination.2.1 0 8 [] [] 0 [] [0] 1 0 rfl rfl,
   die_loop_termination.2.2.1 1 100 [] [] 0 [] [0, 0] 1 rfl (by decide),
   die_loop_termination.2.2.2 1 8 [] [] 0 [0] (1, [], []) rfl⟩

/- ===================== Shell error handling (C6) ===================== -/

/-- C6 counterexample: `d x` — a breakpoint-delete command whose index
does not parse — hits `parse::<usize>().unwrap()` in
`Debugger::sh_release_break` and panics (modelled by `none`), instead of
printing a diagnostic and returning to the shell loop. -/
theorem release_break_bad_index_panics :
    Debugger.sh_release_break ⟨0, fun _ => 0, 0, ⟨[]⟩⟩ "x" = none
    ∧ parseUsize "x" = none := by
  constructor
  · unfold Debugger.sh_release_break
    rw [show parseUsize "x" = none from by decide]
  · decide

theorem set_regs_bad_hex (regs : UserRegs) (reg : String) (val : String)
    (h : fromStrRadix16 (String.mk (trimStart0x val.toList)) = none) :
    Debugger.set_regs regs reg val = none := by
  unfold Debugger.set_regs
  rw [h]

theorem set_regs_unknown_reg (regs : UserRegs) (reg : String) (val : String)
    (h : reg ∉ regNames) : Debugger.set_regs regs reg val = none := by
  cases hp : fromStrRadix16 (String.mk (trimStart0x val.toList)) with
  | none => simp only [Debugger.set_regs, hp]
  | some v =>
    simp only [regNames, List.mem_cons, List.not_mem_nil, or_false] at h
    push_neg at h
    obtain ⟨h1, h2, h3, h4, h5, h6, h7, h8, h9, h10, h11, h12, h13, h14, h15,
      h16, h17, h18, h19, h20, h21, h22, h23, h24, h25⟩ := h
    simp only [Debugger.set_regs, hp]
    rw [if_neg h1, if_neg h2, if_neg h3, if_neg h4, if_neg h5, if_neg h6,
      if_neg h7, if_neg h8, if_neg h9, if_neg h10, if_neg h11, if_neg h12,
      if_neg h13, if_neg h14, if_neg h15, if_neg h16, if_neg h17, if_neg h18,
      if_neg h19, if_neg h20, if_neg h21, if_neg h22, if_neg h23, if_neg h24,
      if_neg h25]

theorem sh_release_break_bad_parse (st : DbgState) (no : String)
    (h : parseUsize no = none) : Debugger.sh_release_break st no = none := by
  unfold Debugger.sh_release_break
  rw [h]

/-- C6 amended: a hex value that does not parse or an unknown register
name in `set regs` prints a diagnostic and returns with no register write,
and the shell loop continues; but a breakpoint index that does not parse
in `d N` panics through `unwrap`, aborting the process. -/
theorem shell_parse_error_handling :
    (∀ (regs : UserRegs) (reg val : String),
      fromStrRadix16 (String.mk (trimStart0x val.toList)) = none →
      Debugger.set_regs regs reg val = none)
    ∧ (∀ (regs : UserRegs) (reg val : String), reg ∉ regNames →
      Debugger.set_regs regs reg val = none)
    ∧ (∀ (st : DbgState) (no : String), parseUsize no = none →
      Debugger.sh_release_break st no = none) :=
  ⟨set_regs_bad_hex, set_regs_unknown_reg, sh_release_break_bad_parse⟩

/-- Witness for C6 at concrete inputs. -/
theorem shell_parse_error_handling_witness :
    Debugger.set_regs ⟨0, 0, 0, 0, 0, 0, 0, 0, 0, 0, 0, 0, 0, 0, 0, 0, 0, 0, 0,
        0, 0, 0, 0, 0, 0⟩ "rax" "zz" = none
    ∧ Debugger.set_regs ⟨0, 0, 0, 0, 0, 0, 0, 0, 0, 0, 0, 0, 0, 0, 0, 0, 0, 0, 0,
        0, 0, 0, 0, 0, 0⟩ "foo" "0x10" = none
    ∧ Debugger.sh_release_break ⟨0, fun _ => 0, 0, ⟨[]⟩⟩ "4x" = none :=
  ⟨shell_parse_error_handling.1 _ "rax" "zz" (by decide),
   shell_parse_error_handling.2.1 _ "foo" "0x10" (by decide),
   shell_parse_error_handling.2.2 _ "4x" (by decide)⟩

/- ===================== DW_FORM FlagPresent (C7) ===================== -/

/-- C7: the `FlagPresent` arm of `DebugInfoSection::parse` consumes zero
bytes from the `.debug_info` stream, but the stored `value_text` is the
misspelled literal `"flag is presetn"`, not the `"flag is present"` the
spec states — the surrounding code comment confirms the intent, so the
string is a slip in the code. -/
theorem flag_present_value :
    (∀ (strBuf bytes : List Nat),
      Dwarf.parseForm 0x19 strBuf bytes = some ("flag is presetn", 0, bytes))
    ∧ "flag is presetn" ≠ "flag is present" := by
  exact ⟨fun strBuf bytes => rfl, by decide⟩

/- ===================== Syscall names (C8) ===================== -/

/-- C8 counterexample: for `orig_rax = 17` (`SYS_pread64`) the table
prints `"pread"`, and for `orig_rax = 18` (`SYS_pwrite64`) it prints
`"pwrite"` — not the `"pread64"`/`"pwrite64"` the claim states. -/
theorem syscall_name_cex :
    Tracer.to_syscall 17 = "pread" ∧ Tracer.to_syscall 18 = "pwrite"
    ∧ Tracer.to_syscall 17 ≠ "pread64" ∧ Tracer.to_syscall 18 ≠ "pwrite64" :=
  ⟨rfl, rfl, by decide, by decide⟩

/-- C8 amended: the closed number-to-name table maps each handled syscall
number to its name, with `"pread"`/`"pwrite"` (not `"pread64"`/
`"pwrite64"`) for numbers 17 and 18, and every other number to
`"unknown system call"`. -/
theorem syscall_table_amended :
    (Tracer.to_syscall 0 = "read" ∧ Tracer.to_syscall 1 = "write"
    ∧ Tracer.to_syscall 2 = "open" ∧ Tracer.to_syscall 3 = "close"
    ∧ Tracer.to_syscall 4 = "stat" ∧ Tracer.to_syscall 5 = "fstat"
    ∧ Tracer.to_syscall 9 = "mmap" ∧ Tracer.to_syscall 11 = "munmap"
    ∧ Tracer.to_syscall 12 = "brk" ∧ Tracer.to_syscall 17 = "pread"
    ∧ Tracer.to_syscall 18 = "pwrite" ∧ Tracer.to_syscall 19 = "readv"
    ∧ Tracer.to_syscall 20 = "writev" ∧ Tracer.to_syscall 21 = "access"
    ∧ Tracer.to_syscall 295 = "preadv" ∧ Tracer.to_syscall 296 = "pwritev"
    ∧ Tracer.to_syscall 10 = "mprotect" ∧ Tracer.to_syscall 158 = "arch_prctl"
    ∧ Tracer.to_syscall 60 = "exit" ∧ Tracer.to_syscall 231 = "exit_group"
    ∧ Tracer.to_syscall 257 = "openat" ∧ Tracer.to_syscall 230 = "clock_nanosleep"
    ∧ Tracer.to_syscall 35 = "nanosleep")
    ∧ (∀ n : Int, n ≠ 0 → n ≠ 1 → n ≠ 2 → n ≠ 3 → n ≠ 4 → n ≠ 5 → n ≠ 9 →
      n ≠ 11 → n ≠ 12 → n ≠ 17 → n ≠ 18 → n ≠ 19 → n ≠ 20 → n ≠ 21 →
      n ≠ 295 → n ≠ 296 → n ≠ 10 → n ≠ 158 → n ≠ 60 → n ≠ 231 → n ≠ 257 →
      n ≠ 230 → n ≠ 35 → Tracer.to_syscall n = "unknown system call") := by
  constructor
  · exact ⟨rfl, rfl, rfl, rfl, rfl, rfl, rfl, rfl, rfl, rfl, rfl, rfl, rfl,
      rfl, rfl, rfl, rfl, rfl, rfl, rfl, rfl, rfl, rfl⟩
  · intro n h0 h1 h2 h3 h4 h5 h9 h11 h12 h17 h18 h19 h20 h21 h295 h296 h10
      h158 h60 h231 h257 h230 h35
    unfold Tracer.to_syscall
    rw [if_neg h0, if_neg h1, if_neg h2, if_neg h3, if_neg h4, if_neg h5,
      if_neg h9, if_neg h11, if_neg h12, if_neg h17, if_neg h18, if_neg h19,
      if_neg h20, if_neg h21, if_neg h295, if_neg h296, if_neg h10,
      if_neg h158, if_neg h60, if_neg h231, if_neg h257, if_neg h230,
      if_neg h35]

/-- Witness for C8's unhandled-number case. -/
theorem syscall_table_amended_witness :
    Tracer.to_syscall 7 = "unknown system call" :=
  syscall_table_amended.2 7 (by decide) (by decide) (by decide) (by decide)
    (by decide) (by decide) (by decide) (by decide) (by decide) (by decide)
    (by decide) (by decide) (by decide) (by decide) (by decide) (by decide)
    (by decide) (by decide) (by decide) (by decide) (by decide) (by decide)
    (by decide)

/- ===================== Null-terminated extractor (C9) ===================== -/

theorem dropWhile_head_zero (l : List Nat) :
    l.dropWhile (fun c => c != 0) = [] ∨
      ∃ later, l.dropWhile (fun c => c != 0) = 0 :: later := by
  induction l with
  | nil => exact Or.inl rfl
  | cons x l ih =>
    by_cases hx : x = 0
    · subst hx
      exact Or.inr ⟨l, by simp [List.dropWhile_cons]⟩
    · simpa [List.dropWhile_cons, hx] using ih

/-- C9: the null-terminated string extractor is total in the offset — for
any byte buffer it returns exactly the bytes from the offset up to the
first NUL (they are a prefix of the suffix at that offset, are all
non-zero, and the next byte, when one exists, is the NUL), and an offset
at or past the end of the buffer yields the empty byte string rather than
a failure. -/
theorem to_string_total :
    (∀ (buf : List Nat) (offset : Nat), buf.length ≤ offset →
      Elf64.to_string buf offset = [])
    ∧ (∀ (buf : List Nat) (offset : Nat), ∃ rest,
        buf.drop offset = Elf64.to_string buf offset ++ rest
        ∧ (∀ b ∈ Elf64.to_string buf offset, b ≠ 0)
        ∧ (rest = [] ∨ ∃ later, rest = 0 :: later)) := by
  constructor
  · intro buf offset h
    unfold Elf64.to_string
    rw [List.drop_eq_nil_of_le h]
    rfl
  · intro buf offset
    simp only [Elf64.to_string]
    refine ⟨(buf.drop offset).dropWhile (fun c => c != 0), ?_, ?_, ?_⟩
    · exact (List.takeWhile_append_dropWhile _ _).symm
    · intro b hb
      have := List.mem_takeWhile_imp hb
      simpa using this
    · exact dropWhile_head_zero _

/-- Witness for C9 at a concrete out-of-range offset. -/
theorem to_string_total_witness : Elf64.to_string [65, 66, 0, 67] 9 = [] :=
  to_string_total.1 [65, 66, 0, 67] 9 (by decide)

/- ===================== Breakpoint recovery (C10) ===================== -/

/-- C10: breakpoint recovery leaves the breakpoint table unchanged — the
re-installation after the single step calls `register` for an address that
is still in the table, `register` rejects the duplicate, and the table
keeps exactly the same entries (symbols, saved words, order) it had before
the hit.  The hypothesis that every registered address is at or above the
load base reflects how entries are created (`entry + relative`), and is
what keeps `to_sym_addr`'s subtraction exact. -/
theorem recover_preserves_table :
    ∀ (st : DbgState) (ripBp : Address) (st' : DbgState),
      (∀ b ∈ st.bps.breakpoints, st.entry ≤ b.addr.get) →
      Debugger.recover_bp st ripBp = some st' →
      st'.bps = st.bps := by
  intro st ripBp st' hle h
  unfold Debugger.recover_bp at h
  cases hs : st.bps.search ripBp with
  | none => rw [hs] at h; exact Option.noConfusion h
  | some bpInfo =>
    rw [hs] at h
    injection h with h
    subst h
    unfold BreakpointList.search at hs
    have hmem := List.mem_of_find?_eq_some hs
    have hentry : st.entry ≤ bpInfo.addr.get := hle bpInfo hmem
    simp only [Debugger.breakpoint, DbgState.write_mem, DbgState.to_sym_addr,
      BreakpointList.register]
    have haddr : (Address.rel st.entry (bpInfo.addr.get - st.entry)).get
        = bpInfo.addr.get := by
      show st.entry + (bpInfo.addr.get - st.entry) = bpInfo.addr.get
      omega
    simp only [haddr]
    cases hfind : st.bps.breakpoints.find?
        (fun b => b.addr.get == bpInfo.addr.get) with
    | some w => simp [hfind]
    | none =>
      exact absurd (by simp : (bpInfo.addr.get == bpInfo.addr.get) = true)
        (List.find?_eq_none.mp hfind bpInfo hmem)

/-- Witness for C10 at a concrete one-entry table. -/
theorem recover_preserves_table_witness :
    Option.map DbgState.bps
        (Debugger.recover_bp ⟨100, fun _ => 7, 0, ⟨[⟨"main", 5, Address.rel 100 9⟩]⟩⟩
          (Address.abs 109)) =
      some (⟨100, fun _ => 7, 0, ⟨[⟨"main", 5, Address.rel 100 9⟩]⟩⟩ : DbgState).bps := by
  obtain ⟨st', hst⟩ : ∃ st',
      Debugger.recover_bp ⟨100, fun _ => 7, 0, ⟨[⟨"main", 5, Address.rel 100 9⟩]⟩⟩
        (Address.abs 109) = some st' := ⟨_, rfl⟩
  rw [hst]
  have heq := recover_preserves_table
    ⟨100, fun _ => 7, 0, ⟨[⟨"main", 5, Address.rel 100 9⟩]⟩⟩
    (Address.abs 109) st' (by decide) hst
  simp [heq]
